import Mathlib

/-!
Verification of the section-exploration engine of the `section_testing`
repository (src/src/lib.rs), shallowly embedded in Lean.

Modelling choices:
* The thread-local `Runner` is passed explicitly: every Rust function that
  mutates the thread-local state becomes a Lean function from `Runner` to
  (result x `Runner`).
* `HashMap<Section, Entry>` is modelled as an association list with unique
  keys; `insert` removes any existing binding of the key and appends the new
  one, `get` scans for the first binding.  Only lookup, insert, count of
  values and iteration feed the algorithm; where the Rust code iterates in
  unspecified hash order it either only counts (order-irrelevant) or sorts
  the result, so the list representation is adequate.
* Panics and `assert!` failures in a test body are modelled by the body
  returning `false` as its success flag at the point of the panic.
* `eprint` output is modelled by returning the emitted lines as data.
* Rust `{:?}` formatting of a label is modelled by quoting and escaping
  quote and backslash characters (the labels appearing in this development
  contain no other characters that `escape_debug` would rewrite).
-/

namespace SectionTesting

/-- Identity of one branch point: label plus static source location
(src/src/lib.rs, `struct Section`). -/
structure Section where
  name : String
  file : String
  line : Nat
deriving DecidableEq

/-- Per-section state within one path (src/src/lib.rs, `struct Entry`):
whether the section runs on this pass, and its rank among active sections. -/
structure Entry where
  should_enter : Bool
  index : Nat
deriving DecidableEq

/-- A `HashMap<Section, Entry>` of the Rust code, as an association list with
unique keys. -/
abbrev Path : Type := List (Section × Entry)

/-- Lookup of `HashMap::get`: first binding of the key, if any. -/
def pathGet (p : Path) (s : Section) : Option Entry :=
  match p with
  | [] => none
  | (k, e) :: rest => if k = s then some e else pathGet rest s

/-- Insert of `HashMap::insert`: drop any existing binding of the key, append
the new one. -/
def pathInsert (p : Path) (s : Section) (e : Entry) : Path :=
  p.filter (fun x => decide (x.1 ≠ s)) ++ [(s, e)]

/-- The (section, entry) pairs of a path whose `should_enter` flag is set, in
representation order. -/
def activePairs (p : Path) : List (Section × Entry) :=
  p.filter (fun x => x.2.should_enter)

/-- Count of active sections in a path: `values().filter(should_enter).count()`
in `DropHandler::drop`. -/
def countActive (p : Path) : Nat :=
  (activePairs p).length

/-- Ranks (`index` fields) of the active entries of a path. -/
def activeIdx (p : Path) : List Nat :=
  (activePairs p).map (fun x => x.2.index)

/-- Labels of the active sections of a path. -/
def activeNames (p : Path) : List String :=
  (activePairs p).map (fun x => x.1.name)

/-- The per-thread engine state (src/src/lib.rs, `struct Runner`). -/
structure Runner where
  is_running : Bool
  queue : List Path
  current : Path
  new : List Section
deriving DecidableEq

/-- The fresh state built by `Runner::new()`: not running, queue holding one
empty path, empty current path, empty discovered list. -/
def runnerNew : Runner :=
  { is_running := false, queue := [[]], current := [], new := [] }

/-- `enable_sections_start`: refuse when already running, otherwise replace
the whole state by a fresh one and accept. -/
def enable_sections_start (r : Runner) : Bool × Runner :=
  if r.is_running then (false, r) else (true, runnerNew)

/-- `enable_sections_step`: pop the front of the queue; on success it becomes
the current path, the discovered list is cleared and the running flag set. -/
def enable_sections_step (r : Runner) : Bool × Runner :=
  match r.queue with
  | [] => (false, r)
  | p :: rest => (true, { is_running := true, queue := rest, current := p, new := [] })

/-- `enter_section`: look the section up in the current path; on a hit replay
the recorded decision, on a miss append the section to the discovered list
and answer `false`. -/
def enter_section (r : Runner) (name file : String) (line : Nat) : Bool × Runner :=
  let s : Section := { name := name, file := file, line := line }
  match pathGet r.current s with
  | some e => (e.should_enter, r)
  | none => (false, { r with new := r.new ++ [s] })

/-- `is_running`. -/
def is_running (r : Runner) : Bool :=
  r.is_running

/-- The `section!` macro: it asserts `is_running()` (a panic, modelled as
`none`, when no pass is active) and then calls `enter_section`. -/
def section_query (r : Runner) (name file : String) (line : Nat) :
    Option (Bool × Runner) :=
  if is_running r then some (enter_section r name file line) else none

/-- One new path built by the success branch of `DropHandler::drop` for the
chosen discovered section `sec`: a copy of the current path where every
discovered section is inserted with `should_enter` only for `sec` and rank
`count`. -/
def buildPath (current : Path) (l : List Section) (sec : Section) (count : Nat) : Path :=
  l.foldl (fun path s => pathInsert path s { should_enter := decide (s = sec), index := count }) current

/-- All paths pushed onto the queue by the success branch of
`DropHandler::drop`: one per element of the discovered list, in order. -/
def successPaths (r : Runner) : List Path :=
  r.new.map (fun sec => buildPath r.current r.new sec (countActive r.current))

/-- The success branch of `DropHandler::drop` for a top-level pass: clear the
running flag, move the discovered list out, and push one new path per
discovered section onto the back of the queue. -/
def finalizeSuccess (r : Runner) : Runner :=
  { r with is_running := false, new := [], queue := r.queue ++ successPaths r }

/-- The state effect of the failure branch of `DropHandler::drop` for a
top-level pass: only the running flag is cleared. -/
def finalizeFailureState (r : Runner) : Runner :=
  { r with is_running := false }

/-- Insertion step of the model of `sort_unstable_by` on the `index` field. -/
def insertByIndex (x : Section × Entry) : List (Section × Entry) → List (Section × Entry)
  | [] => [x]
  | y :: ys => if x.2.index ≤ y.2.index then x :: y :: ys else y :: insertByIndex x ys

/-- Sorting of the active pairs by ascending `index`, as done by the failure
branch of `DropHandler::drop`. -/
def sortByIndex : List (Section × Entry) → List (Section × Entry)
  | [] => []
  | x :: xs => insertByIndex x (sortByIndex xs)

/-- Right alignment to width 3 of the Rust format spec. -/
def padIndex (n : Nat) : String :=
  let s := toString n
  if s.length < 3 then String.mk (List.replicate (3 - s.length) ' ') ++ s else s

/-- Escape of one character under Rust `{:?}` string formatting, restricted
to the characters it rewrites among printable ASCII. -/
def escapeChar (c : Char) : String :=
  if c = '"' then "\\\"" else if c = '\\' then "\\\\" else String.singleton c

/-- Rust `{:?}` formatting of a label: quoted, with quote and backslash
escaped. -/
def debugString (s : String) : String :=
  "\"" ++ String.join (s.data.map escapeChar) ++ "\""

/-- One trace line of the failure report: right-aligned index, quoted label,
`file:line`. -/
def reportLine (i : Nat) (s : Section) : String :=
  padIndex i ++ ") " ++ debugString s.name ++ " at " ++ s.file ++ ":" ++ toString s.line

/-- The trace lines emitted by the failure branch of `DropHandler::drop`:
active pairs of the current path, sorted ascending by rank, one line each;
nothing is emitted when no section is active. -/
def failure_lines (p : Path) : Option (List String) :=
  let current := sortByIndex (activePairs p)
  if current.isEmpty then none
  else some ((current.enum).map (fun x => reportLine x.1 x.2.1))

/-- The scoped guard `DropHandler`: a non-top-level guard does nothing; a
top-level guard finalizes the pass as a success or a failure.  The second
component is the report written to stderr, if any. -/
def dropHandler (is_top_level was_success : Bool) (r : Runner) :
    Runner × Option (List String) :=
  if is_top_level = false then (r, none)
  else if was_success then (finalizeSuccess r, none)
  else (finalizeFailureState r, failure_lines r.current)

/-- A test body: from the engine state it produces the engine state at its
end (or at its panic) and whether it completed normally. -/
abbrev Body : Type := Runner → Runner × Bool

/-- The driving loop of the `enable_sections!` wrapper for an accepted
(top-level) invocation, with explicit fuel: step, run the body inside a
top-level guard, repeat until the queue is exhausted.  Returns the final
state and the list of paths that were made current, one per pass. -/
def drive (body : Body) : Nat → Runner → Runner × List Path
  | 0, r => (r, [])
  | Nat.succ fuel, r =>
    match enable_sections_step r with
    | (false, r1) => (r1, [])
    | (true, r1) =>
      let cur := r1.current
      let br := body r1
      let r2 := (dropHandler true br.2 br.1).1
      let rest := drive body fuel r2
      (rest.1, cur :: rest.2)

/-- The `enable_sections!` wrapper around one test function: call
`enable_sections_start`; when accepted, drive the loop; when rejected, run
the body exactly once inside a non-top-level guard. -/
def enable_sections_run (body : Body) (fuel : Nat) (r : Runner) : Runner × List Path :=
  match enable_sections_start r with
  | (true, r1) => drive body fuel r1
  | (false, r1) =>
    let br := body r1
    ((dropHandler false br.2 br.1).1, [r1.current])

/-! The example test of tests/example.rs, embedded with its vector state as a
`List Int`.  Panics of `assert_eq!`, `pop().unwrap()` and `remove(0)` are
modelled by returning `false`. -/

/-- Source file name of the example test. -/
def exFile : String := "tests/example.rs"

/-- The `pop+remove+insert+push` section of `check_123`
(tests/example.rs:17-23). -/
def check_123_prip (r : Runner) (v : List Int) : Runner × List Int × Bool :=
  let q := enter_section r "pop+remove+insert+push" exFile 17
  if q.1 then
    match v.getLast? with
    | none => (q.2, v, false)
    | some three =>
      let v1 := v.dropLast
      match v1.head? with
      | none => (q.2, v1, false)
      | some one =>
        let v2 := three :: v1.tail
        let v3 := v2 ++ [one]
        (q.2, v3, decide (v3 = [3, 2, 1]))
  else (q.2, v, true)

/-- The helper `check_123` of the example test (tests/example.rs:9-24). -/
def check_123 (r : Runner) (v : List Int) : Runner × List Int × Bool :=
  if v = [1, 2, 3] then
    let q := enter_section r "reverse" exFile 12
    let s1 : Runner × List Int × Bool :=
      if q.1 then
        let v1 := v.reverse
        (q.2, v1, decide (v1 = [3, 2, 1]))
      else (q.2, v, true)
    if s1.2.2 then check_123_prip s1.1 s1.2.1 else s1
  else (r, v, false)

/-- The body of `example_test` (tests/example.rs:6-39). -/
def example_test_body (r : Runner) : Runner × Bool :=
  let v : List Int := []
  let q1 := enter_section r "push" exFile 26
  let s1 : Runner × List Int × Bool :=
    if q1.1 then
      let v1 := v ++ [1]
      let v2 := v1 ++ [2]
      let v3 := v2 ++ [3]
      check_123 q1.2 v3
    else (q1.2, v, true)
  if s1.2.2 then
    let q2 := enter_section s1.1 "insert" exFile 33
    if q2.1 then
      let v1 := s1.2.1.insertIdx 0 3
      let v2 := v1.insertIdx 0 1
      let v3 := v2.insertIdx 1 2
      let s2 := check_123 q2.2 v3
      (s2.1, s2.2.2)
    else (q2.2, true)
  else (s1.1, false)

/-- The complete run of the example test from a fresh thread. -/
def exampleRun : Runner × List Path :=
  enable_sections_run example_test_body 20 runnerNew

/-! Concrete states used to instantiate the theorems below. -/

/-- A running state whose current path holds the `reverse` section, active
with rank 1. -/
def cPresent : Runner :=
  { is_running := true, queue := [],
    current := [({ name := "reverse", file := exFile, line := 12 },
                 { should_enter := true, index := 1 })],
    new := [] }

/-- A running state with an empty current path, as after the very first
`enable_sections_step` on a fresh thread. -/
def cexRunner : Runner :=
  { is_running := true, queue := [], current := [], new := [] }

/-- An idle state with leftover queue, current path and discovered list. -/
def dirtyRunner : Runner :=
  { is_running := false, queue := [[], []],
    current := [({ name := "x", file := "f.rs", line := 1 },
                 { should_enter := true, index := 5 })],
    new := [{ name := "y", file := "g.rs", line := 2 }] }

/-- A path with two active sections whose ranks are out of representation
order, plus one inactive section, as current when a pass aborts. -/
def cPathFail : Path :=
  [(⟨"pop+remove+insert+push", exFile, 17⟩, ⟨true, 1⟩),
   (⟨"insert", exFile, 33⟩, ⟨false, 0⟩),
   (⟨"push", exFile, 26⟩, ⟨true, 0⟩)]

/-- One atomic state change of the engine: any of the exported operations,
applied to the per-thread state. -/
inductive EngineStep : Runner → Runner → Prop where
  | start (r : Runner) : EngineStep r (enable_sections_start r).2
  | step (r : Runner) : EngineStep r (enable_sections_step r).2
  | enter (r : Runner) (n f : String) (l : Nat) : EngineStep r (enter_section r n f l).2
  | success (r : Runner) : EngineStep r (finalizeSuccess r)
  | failure (r : Runner) : EngineStep r (finalizeFailureState r)

/-- States the engine can reach from a fresh thread-local state by any
sequence of operations. -/
def Reachable (r : Runner) : Prop :=
  Relation.ReflTransGen EngineStep runnerNew r

/-- Rank invariant of one path: the ranks of its active entries, in
representation order, are exactly 0, 1, ..., one below the number of active
entries. -/
abbrev PathInv (p : Path) : Prop :=
  activeIdx p = List.range (countActive p)

/-- Invariant of the engine state: the current path and every queued path
satisfy the rank invariant, and every section on the discovered list is
absent from the current path. -/
abbrev RunnerInv (r : Runner) : Prop :=
  PathInv r.current ∧ (∀ p ∈ r.queue, PathInv p) ∧
    (∀ s ∈ r.new, pathGet r.current s = none)

/-- A reachable state three operations deep: step onto the empty path,
discover `push`, finalize the pass successfully. -/
def w7state : Runner :=
  finalizeSuccess (enter_section (enable_sections_step runnerNew).2 "push" exFile 26).2

/-- C1 (counterexample): the example test body is executed 7 times, not 6;
the first pass runs with no active section, a combination absent from the
claimed list of active-section sets. -/
theorem c1_counterexample :
    exampleRun.2.length = 7 ∧ ¬ exampleRun.2.length = 6 ∧
    (exampleRun.2.map activeNames).head? = some [] := by
  refine ⟨rfl, by decide, rfl⟩

/-- C1 (amended): the example run performs exactly 7 passes; their
active-section sets are, in order, the empty set followed by the six claimed
combinations, with no combination duplicated; afterwards the queue is empty,
so no combination is omitted. -/
theorem c1_example_passes :
    exampleRun.2.length = 7 ∧
    exampleRun.2.map activeNames =
      [[], ["push"], ["insert"], ["push", "reverse"],
        ["push", "pop+remove+insert+push"], ["insert", "reverse"],
        ["insert", "pop+remove+insert+push"]] ∧
    (exampleRun.2.map activeNames).Nodup ∧
    exampleRun.1.queue = [] := by
  refine ⟨rfl, rfl, by decide, rfl⟩

/-- C2: a branch query on a section present in the current path returns the
recorded `should_enter` flag and changes nothing; a query on an absent
section appends it to the discovered list and returns `false`. -/
theorem c2_enter_section (r : Runner) (n f : String) (l : Nat) :
    (∀ e, pathGet r.current ⟨n, f, l⟩ = some e →
      enter_section r n f l = (e.should_enter, r)) ∧
    (pathGet r.current ⟨n, f, l⟩ = none →
      enter_section r n f l = (false, { r with new := r.new ++ [⟨n, f, l⟩] })) := by
  constructor
  · intro e he
    simp [enter_section, he]
  · intro he
    simp [enter_section, he]

/-- Witness for C2 at concrete states: a hit on the recorded `reverse`
section and a miss on the unrecorded `push` section. -/
theorem c2_witness :
    pathGet cPresent.current ⟨"reverse", exFile, 12⟩ = some ⟨true, 1⟩ ∧
    enter_section cPresent "reverse" exFile 12 = (true, cPresent) ∧
    pathGet cexRunner.current ⟨"push", exFile, 26⟩ = none ∧
    enter_section cexRunner "push" exFile 26 =
      (false, { cexRunner with new := cexRunner.new ++ [⟨"push", exFile, 26⟩] }) :=
  ⟨rfl, (c2_enter_section cPresent "reverse" exFile 12).1 ⟨true, 1⟩ rfl,
   rfl, (c2_enter_section cexRunner "push" exFile 26).2 rfl⟩

/-- C3 (counterexample): querying the same absent section twice in one pass
appends it to the discovered list twice, and a successful finalization then
pushes two identical paths onto the queue — the second occurrence does
contribute an additional discovered entry and an extra queue path. -/
theorem c3_counterexample :
    ((enter_section (enter_section cexRunner "x" "f.rs" 7).2 "x" "f.rs" 7).2).new.length = 2 ∧
    ((enter_section (enter_section cexRunner "x" "f.rs" 7).2 "x" "f.rs" 7).2).new ≠
      ((enter_section cexRunner "x" "f.rs" 7).2).new ∧
    (finalizeSuccess ((enter_section (enter_section cexRunner "x" "f.rs" 7).2 "x" "f.rs" 7).2)).queue =
      [[(⟨"x", "f.rs", 7⟩, ⟨true, 0⟩)], [(⟨"x", "f.rs", 7⟩, ⟨true, 0⟩)]] := by
  decide

/-- C3 (amended): a second query of the same (label, file, line) within one
pass always returns the same answer as the first; if the section is present
in the current path the state is unchanged, but if it is absent each of the
two queries appends one occurrence to the discovered list. -/
theorem c3_same_section_requery (r : Runner) (n f : String) (l : Nat) :
    (enter_section (enter_section r n f l).2 n f l).1 = (enter_section r n f l).1 ∧
    (pathGet r.current ⟨n, f, l⟩ ≠ none →
      (enter_section (enter_section r n f l).2 n f l).2 = r) ∧
    (pathGet r.current ⟨n, f, l⟩ = none →
      ((enter_section (enter_section r n f l).2 n f l).2).new =
        r.new ++ [⟨n, f, l⟩, ⟨n, f, l⟩]) := by
  cases hg : pathGet r.current ⟨n, f, l⟩ with
  | some e => simp [enter_section, hg]
  | none => simp [enter_section, hg]

/-- Witness for C3 at a concrete state with an empty current path. -/
theorem c3_witness :
    pathGet cexRunner.current ⟨"x", "f.rs", 7⟩ = none ∧
    ((enter_section (enter_section cexRunner "x" "f.rs" 7).2 "x" "f.rs" 7).2).new =
      cexRunner.new ++ [⟨"x", "f.rs", 7⟩, ⟨"x", "f.rs", 7⟩] :=
  ⟨rfl, (c3_same_section_requery cexRunner "x" "f.rs" 7).2.2 rfl⟩

/-- C5: finalizing an aborted top-level pass leaves the queue, the current
path and the discovered list exactly as they were; only a successful
finalization appends paths (the success paths) to the queue. -/
theorem c5_failure_frame (r : Runner) :
    (dropHandler true false r).1.queue = r.queue ∧
    (dropHandler true false r).1.current = r.current ∧
    (dropHandler true false r).1.new = r.new ∧
    (dropHandler true true r).1.queue = r.queue ++ successPaths r := by
  simp [dropHandler, finalizeFailureState, finalizeSuccess]

/-- C6: `enable_sections_start` accepts exactly when the running flag is
clear; on acceptance the state is reset to a queue holding one empty path,
an empty current path and an empty discovered list; on rejection the state
is returned unchanged. -/
theorem c6_start (r : Runner) :
    ((enable_sections_start r).1 = true ↔ r.is_running = false) ∧
    (r.is_running = false →
      (enable_sections_start r).2.queue = [[]] ∧
      (enable_sections_start r).2.current = [] ∧
      (enable_sections_start r).2.new = [] ∧
      (enable_sections_start r).2.is_running = false) ∧
    (r.is_running = true →
      (enable_sections_start r).1 = false ∧ (enable_sections_start r).2 = r) := by
  cases hr : r.is_running <;> simp [enable_sections_start, hr, runnerNew]

/-- Witness for C6: acceptance on a fresh idle state and rejection on a
running state. -/
theorem c6_witness :
    dirtyRunner.is_running = false ∧
    ((enable_sections_start dirtyRunner).2.queue = [[]] ∧
     (enable_sections_start dirtyRunner).2.current = [] ∧
     (enable_sections_start dirtyRunner).2.new = [] ∧
     (enable_sections_start dirtyRunner).2.is_running = false) :=
  ⟨rfl, (c6_start dirtyRunner).2.1 rfl⟩

/-- C8: the top-level run is a deterministic function of the body and the
fuel alone — started from any two idle states, whatever their leftover
queues, current paths or discovered lists, it yields identical final states
and identical pass sequences, because `enable_sections_start` resets the
whole per-thread state. -/
theorem c8_deterministic (body : Body) (fuel : Nat) (r1 r2 : Runner)
    (h1 : r1.is_running = false) (h2 : r2.is_running = false) :
    enable_sections_run body fuel r1 = enable_sections_run body fuel r2 := by
  simp [enable_sections_run, enable_sections_start, h1, h2]

/-- Witness for C8: the example body driven from a fresh state and from a
dirty idle state produces the same run. -/
theorem c8_witness :
    runnerNew.is_running = false ∧ dirtyRunner.is_running = false ∧
    enable_sections_run example_test_body 3 runnerNew =
      enable_sections_run example_test_body 3 dirtyRunner :=
  ⟨rfl, rfl, c8_deterministic example_test_body 3 runnerNew dirtyRunner rfl rfl⟩

/-- C9: when `enable_sections_start` rejects (a pass is already running on
the thread), the wrapper executes the body exactly once and its final state
is exactly the body's final state; a non-top-level guard is a no-op on any
state and emits no report. -/
theorem c9_nested (body : Body) (fuel : Nat) (r : Runner) (ok : Bool) (g : Runner)
    (h : r.is_running = true) :
    (enable_sections_run body fuel r).2.length = 1 ∧
    (enable_sections_run body fuel r).1 = (body r).1 ∧
    dropHandler false ok g = (g, none) := by
  refine ⟨?_, ?_, ?_⟩ <;> simp [enable_sections_run, enable_sections_start, dropHandler, h]

/-- Witness for C9: a nested invocation of the example body on a running
state. -/
theorem c9_witness :
    cexRunner.is_running = true ∧
    ((enable_sections_run example_test_body 0 cexRunner).2.length = 1 ∧
     (enable_sections_run example_test_body 0 cexRunner).1 =
       (example_test_body cexRunner).1 ∧
     dropHandler false false runnerNew = (runnerNew, none)) :=
  ⟨rfl, c9_nested example_test_body 0 cexRunner false runnerNew rfl⟩

/-- C10: the `section!` helper refuses to answer while no pass is running
(the assertion panics, modelled as `none`); while a pass is running this
failure branch is unreachable and the helper answers via `enter_section`. -/
theorem c10_section_guard (r : Runner) (n f : String) (l : Nat) :
    (r.is_running = false → section_query r n f l = none) ∧
    (r.is_running = true → section_query r n f l = some (enter_section r n f l)) := by
  cases hr : r.is_running <;> simp [section_query, is_running, hr]

/-- Witness for C10: the helper panics on a fresh (not running) state. -/
theorem c10_witness :
    runnerNew.is_running = false ∧ section_query runnerNew "push" exFile 26 = none :=
  ⟨rfl, (c10_section_guard runnerNew "push" exFile 26).1 rfl⟩


/-! Helper lemmas about the sort used by the failure report. -/

theorem perm_insertByIndex (x : Section × Entry) (l : List (Section × Entry)) :
    List.Perm (insertByIndex x l) (x :: l) := by
  induction l with
  | nil => exact List.Perm.refl [x]
  | cons y ys ih =>
    by_cases h : x.2.index ≤ y.2.index
    · simp only [insertByIndex, if_pos h]
      exact List.Perm.refl _
    · simp only [insertByIndex, if_neg h]
      exact (ih.cons y).trans (List.Perm.swap x y ys)

theorem perm_sortByIndex (l : List (Section × Entry)) : List.Perm (sortByIndex l) l := by
  induction l with
  | nil => exact List.Perm.refl []
  | cons x xs ih => exact (perm_insertByIndex x (sortByIndex xs)).trans (ih.cons x)

theorem sorted_insertByIndex (x : Section × Entry) (l : List (Section × Entry))
    (h : l.Sorted (fun a b => a.2.index ≤ b.2.index)) :
    (insertByIndex x l).Sorted (fun a b => a.2.index ≤ b.2.index) := by
  induction l with
  | nil => simp [insertByIndex]
  | cons y ys ih =>
    rw [List.sorted_cons] at h
    by_cases hx : x.2.index ≤ y.2.index
    · simp only [insertByIndex, if_pos hx]
      rw [List.sorted_cons]
      refine ⟨?_, List.sorted_cons.mpr h⟩
      intro b hb
      rcases List.mem_cons.mp hb with rfl | hb
      · exact hx
      · exact le_trans hx (h.1 b hb)
    · simp only [insertByIndex, if_neg hx]
      rw [List.sorted_cons]
      refine ⟨?_, ih h.2⟩
      intro b hb
      have hb' : b ∈ x :: ys := (perm_insertByIndex x ys).mem_iff.mp hb
      rcases List.mem_cons.mp hb' with rfl | hb'
      · exact Nat.le_of_not_le hx
      · exact h.1 b hb'

theorem sorted_sortByIndex (l : List (Section × Entry)) :
    (sortByIndex l).Sorted (fun a b => a.2.index ≤ b.2.index) := by
  induction l with
  | nil => simp [sortByIndex]
  | cons x xs ih => exact sorted_insertByIndex x (sortByIndex xs) ih

/-- C4: when a pass aborts, no report is emitted when the current path has no
active section; otherwise the report holds exactly one line per active
(section, entry) pair — the lines enumerate, starting at index 0, a
permutation of the active pairs ordered ascending by rank, each formatted by
`reportLine`. -/
theorem c4_failure_report (p : Path) :
    (activePairs p = [] → failure_lines p = none) ∧
    (activePairs p ≠ [] →
      ∃ lines, failure_lines p = some lines ∧
        lines.length = countActive p ∧
        lines = ((sortByIndex (activePairs p)).enum).map (fun x => reportLine x.1 x.2.1) ∧
        List.Perm (sortByIndex (activePairs p)) (activePairs p) ∧
        (sortByIndex (activePairs p)).Sorted (fun a b => a.2.index ≤ b.2.index)) := by
  constructor
  · intro h
    simp [failure_lines, h, sortByIndex]
  · intro h
    have hperm := perm_sortByIndex (activePairs p)
    have hne : sortByIndex (activePairs p) ≠ [] := by
      intro h0
      have hlen := hperm.length_eq
      rw [h0] at hlen
      exact h (List.eq_nil_of_length_eq_zero hlen.symm)
    refine ⟨_, ?_, ?_, rfl, hperm, sorted_sortByIndex (activePairs p)⟩
    · simp only [failure_lines]
      rw [if_neg (by simpa using hne)]
    · rw [List.length_map, List.enum_length, hperm.length_eq]
      rfl

/-- Witness for C4 at a concrete aborted path: the two active sections are
reported in rank order with the exact strings of the README example. -/
theorem c4_witness :
    activePairs cPathFail ≠ [] ∧
    (∃ lines, failure_lines cPathFail = some lines ∧
      lines.length = countActive cPathFail ∧
      lines = ((sortByIndex (activePairs cPathFail)).enum).map (fun x => reportLine x.1 x.2.1) ∧
      List.Perm (sortByIndex (activePairs cPathFail)) (activePairs cPathFail) ∧
      (sortByIndex (activePairs cPathFail)).Sorted (fun a b => a.2.index ≤ b.2.index)) ∧
    failure_lines cPathFail =
      some ["  0) \"push\" at tests/example.rs:26",
            "  1) \"pop+remove+insert+push\" at tests/example.rs:17"] :=
  ⟨by decide, (c4_failure_report cPathFail).2 (by decide), by decide⟩

/-! Helper lemmas for the rank invariant of reachable states. -/

theorem pathGet_eq_none (p : Path) (s : Section) :
    pathGet p s = none ↔ ∀ x ∈ p, x.1 ≠ s := by
  induction p with
  | nil => simp [pathGet]
  | cons x xs ih =>
    cases x with
    | mk k e =>
      by_cases hk : k = s
      · simp [pathGet, hk]
      · simp [pathGet, hk, ih]

theorem filter_key_eq_self (p : Path) (s : Section) (h : ∀ x ∈ p, x.1 ≠ s) :
    p.filter (fun x => decide (x.1 ≠ s)) = p :=
  List.filter_eq_self.mpr (fun a ha => by simpa using h a ha)

theorem activePairs_append (p q : Path) :
    activePairs (p ++ q) = activePairs p ++ activePairs q := by
  simp [activePairs, List.filter_append]

theorem buildPath_fold (sec : Section) (count : Nat) (current : Path) (l : List Section) :
    ∀ ext : Path,
      (∀ s ∈ l, ∀ x ∈ current, x.1 ≠ s) →
      (∀ x ∈ ext, x.2 = { should_enter := decide (x.1 = sec), index := count }) →
      ((ext.map Prod.fst).Nodup) →
      ∃ ext' : Path,
        List.foldl
            (fun path s => pathInsert path s { should_enter := decide (s = sec), index := count })
            (current ++ ext) l =
          current ++ ext' ∧
        (∀ x ∈ ext', x.2 = { should_enter := decide (x.1 = sec), index := count }) ∧
        ((ext'.map Prod.fst).Nodup) ∧
        (∀ k, k ∈ ext'.map Prod.fst ↔ k ∈ ext.map Prod.fst ∨ k ∈ l) := by
  induction l with
  | nil =>
    intro ext hfresh hext hnd
    exact ⟨ext, rfl, hext, hnd, fun k => by simp⟩
  | cons s rest ih =>
    intro ext hfresh hext hnd
    have hstep : pathInsert (current ++ ext) s
          { should_enter := decide (s = sec), index := count } =
        current ++ (ext.filter (fun x => decide (x.1 ≠ s)) ++
          [(s, { should_enter := decide (s = sec), index := count })]) := by
      unfold pathInsert
      rw [List.filter_append,
        filter_key_eq_self current s (hfresh s (List.mem_cons_self s rest)),
        List.append_assoc]
    have hext1 : ∀ x ∈ ext.filter (fun x => decide (x.1 ≠ s)) ++
        [(s, { should_enter := decide (s = sec), index := count })],
        x.2 = { should_enter := decide (x.1 = sec), index := count } := by
      intro x hx
      rcases List.mem_append.mp hx with hx | hx
      · exact hext x (List.mem_of_mem_filter hx)
      · rcases List.mem_singleton.mp hx with rfl
        rfl
    have hnd1 : List.Nodup (List.map Prod.fst
        (ext.filter (fun (x : Section × Entry) => decide (x.1 ≠ s)) ++
          [(s, { should_enter := decide (s = sec), index := count })])) := by
      rw [List.map_append, List.nodup_append]
      have hsub : List.Sublist ((ext.filter (fun x => decide (x.1 ≠ s))).map Prod.fst)
          (ext.map Prod.fst) :=
        List.Sublist.map Prod.fst (List.filter_sublist ext)
      refine ⟨List.Nodup.sublist hsub hnd, by simp, ?_⟩
      intro k hk hk'
      simp only [List.map_cons, List.map_nil, List.mem_singleton] at hk'
      subst hk'
      rcases List.mem_map.mp hk with ⟨x, hx, hxk⟩
      have hxne := List.of_mem_filter hx
      rw [decide_eq_true_eq] at hxne
      exact hxne hxk
    have hfresh1 : ∀ s' ∈ rest, ∀ x ∈ current, x.1 ≠ s' :=
      fun s' hs' => hfresh s' (List.mem_cons_of_mem s hs')
    obtain ⟨ext', h1, h2, h3, h4⟩ := ih (ext.filter (fun x => decide (x.1 ≠ s)) ++
      [(s, { should_enter := decide (s = sec), index := count })]) hfresh1 hext1 hnd1
    refine ⟨ext', ?_, h2, h3, ?_⟩
    · rw [List.foldl_cons, hstep, h1]
    · intro k
      rw [h4 k]
      have hmem1 : k ∈ List.map Prod.fst
          (ext.filter (fun (x : Section × Entry) => decide (x.1 ≠ s)) ++
            [(s, { should_enter := decide (s = sec), index := count })]) ↔
          (k ∈ ext.map Prod.fst ∧ k ≠ s) ∨ k = s := by
        rw [List.map_append]
        simp only [List.mem_append, List.map_cons, List.map_nil, List.mem_singleton]
        constructor
        · rintro (hk | hk)
          · rcases List.mem_map.mp hk with ⟨x, hx, hxk⟩
            have hx1 := List.mem_filter.mp hx
            have hxne := hx1.2
            rw [decide_eq_true_eq] at hxne
            exact Or.inl ⟨List.mem_map.mpr ⟨x, hx1.1, hxk⟩, hxk ▸ hxne⟩
          · exact Or.inr hk
        · rintro (⟨hk, hks⟩ | rfl)
          · rcases List.mem_map.mp hk with ⟨x, hx, hxk⟩
            refine Or.inl (List.mem_map.mpr ⟨x, List.mem_filter.mpr ⟨hx, ?_⟩, hxk⟩)
            rw [decide_eq_true_eq]
            intro he
            exact hks (by rw [← hxk, he])
          · exact Or.inr rfl
      rw [hmem1]
      simp only [List.mem_cons]
      by_cases hks : k = s
      · simp [hks]
      · simp [hks]

theorem activePairs_entriesOk (sec : Section) (count : Nat) (ext : Path) :
    (∀ x ∈ ext, x.2 = { should_enter := decide (x.1 = sec), index := count }) →
    ((ext.map Prod.fst).Nodup) → sec ∈ ext.map Prod.fst →
    activePairs ext = [(sec, { should_enter := true, index := count })] := by
  induction ext with
  | nil => simp
  | cons x xs ih =>
    intro hok hnd hm
    have hx2 := hok x (List.mem_cons_self x xs)
    rw [List.map_cons, List.nodup_cons] at hnd
    by_cases hxs : x.1 = sec
    · have hrest : List.filter (fun y => y.2.should_enter) xs = [] := by
        apply List.filter_eq_nil_iff.mpr
        intro y hy
        have hy2 := hok y (List.mem_cons_of_mem x hy)
        have hyk : y.1 ≠ sec := by
          intro he
          exact hnd.1 (hxs.symm ▸ List.mem_map.mpr ⟨y, hy, he⟩)
        rw [hy2]
        simp [hyk]
      have hx' : x = (sec, { should_enter := true, index := count }) := by
        cases x with
        | mk xk xe =>
          simp only at hxs hx2
          subst hxs
          rw [hx2]
          simp
      subst hx'
      unfold activePairs
      simp [List.filter_cons, hrest]
    · have hxe : x.2.should_enter = false := by
        rw [hx2]
        simp [hxs]
      have hm' : sec ∈ xs.map Prod.fst := by
        rcases List.mem_cons.mp hm with he | hm'
        · exact absurd he.symm hxs
        · exact hm'
      have hrec := ih (fun y hy => hok y (List.mem_cons_of_mem x hy)) hnd.2 hm'
      unfold activePairs at hrec ⊢
      simp [List.filter_cons, hxe, hrec]

theorem buildPath_activePairs (current : Path) (l : List Section) (sec : Section) (count : Nat)
    (hfresh : ∀ s ∈ l, pathGet current s = none) (hsec : sec ∈ l) :
    activePairs (buildPath current l sec count) =
      activePairs current ++ [(sec, { should_enter := true, index := count })] := by
  obtain ⟨ext', h1, h2, h3, h4⟩ := buildPath_fold sec count current l []
    (fun s hs x hx => (pathGet_eq_none current s).mp (hfresh s hs) x hx)
    (by simp) (by simp)
  rw [List.append_nil] at h1
  have hb : buildPath current l sec count = current ++ ext' := h1
  rw [hb, activePairs_append,
    activePairs_entriesOk sec count ext' h2 h3 ((h4 sec).mpr (Or.inr hsec))]

theorem PathInv_buildPath (current : Path) (l : List Section) (sec : Section)
    (hfresh : ∀ s ∈ l, pathGet current s = none) (hsec : sec ∈ l) (hinv : PathInv current) :
    PathInv (buildPath current l sec (countActive current)) := by
  have h := buildPath_activePairs current l sec (countActive current) hfresh hsec
  have hidx : activeIdx (buildPath current l sec (countActive current)) =
      activeIdx current ++ [countActive current] := by
    show (activePairs (buildPath current l sec (countActive current))).map
        (fun x => x.2.index) =
      (activePairs current).map (fun x => x.2.index) ++ [countActive current]
    rw [h, List.map_append]
    rfl
  have hcnt : countActive (buildPath current l sec (countActive current)) =
      countActive current + 1 := by
    show (activePairs (buildPath current l sec (countActive current))).length =
      (activePairs current).length + 1
    rw [h, List.length_append]
    rfl
  have hinv' : activeIdx current = List.range (countActive current) := hinv
  show activeIdx (buildPath current l sec (countActive current)) =
    List.range (countActive (buildPath current l sec (countActive current)))
  rw [hidx, hcnt, List.range_succ, hinv']

theorem runnerInv_new : RunnerInv runnerNew := by
  refine ⟨?_, ?_, ?_⟩
  · show PathInv ([] : Path)
    simp [PathInv, activeIdx, countActive, activePairs]
  · intro p hp
    have hp' : p = ([] : Path) := by simpa [runnerNew] using hp
    subst hp'
    simp [PathInv, activeIdx, countActive, activePairs]
  · intro s hs
    simp [runnerNew] at hs

theorem runnerInv_start (r : Runner) (h : RunnerInv r) :
    RunnerInv (enable_sections_start r).2 := by
  unfold enable_sections_start
  cases hr : r.is_running
  · simpa [hr] using runnerInv_new
  · simpa [hr] using h

theorem runnerInv_step (r : Runner) (h : RunnerInv r) :
    RunnerInv (enable_sections_step r).2 := by
  unfold enable_sections_step
  cases hq : r.queue with
  | nil => exact h
  | cons p rest =>
    refine ⟨h.2.1 p (by rw [hq]; exact List.mem_cons_self p rest), ?_, by simp⟩
    intro q hqm
    exact h.2.1 q (by rw [hq]; exact List.mem_cons_of_mem p hqm)

theorem runnerInv_enter (r : Runner) (n f : String) (l : Nat) (h : RunnerInv r) :
    RunnerInv (enter_section r n f l).2 := by
  rcases hg : pathGet r.current ⟨n, f, l⟩ with _ | e
  · have he : (enter_section r n f l).2 = { r with new := r.new ++ [⟨n, f, l⟩] } := by
      simp [enter_section, hg]
    rw [he]
    refine ⟨h.1, h.2.1, ?_⟩
    intro s hs
    rcases List.mem_append.mp hs with hs | hs
    · exact h.2.2 s hs
    · rcases List.mem_singleton.mp hs with rfl
      exact hg
  · have he : (enter_section r n f l).2 = r := by
      simp [enter_section, hg]
    rw [he]
    exact h

theorem runnerInv_success (r : Runner) (h : RunnerInv r) :
    RunnerInv (finalizeSuccess r) := by
  refine ⟨h.1, ?_, by simp [finalizeSuccess]⟩
  intro p hp
  rcases List.mem_append.mp hp with hp | hp
  · exact h.2.1 p hp
  · rcases List.mem_map.mp hp with ⟨sec, hsec, rfl⟩
    exact PathInv_buildPath r.current r.new sec (fun s hs => h.2.2 s hs) hsec h.1

theorem runnerInv_failure (r : Runner) (h : RunnerInv r) :
    RunnerInv (finalizeFailureState r) := h

/-- C7: in every reachable engine state the ranks of the active entries of
the current path — and of every queued path — are pairwise distinct (they
are exactly 0, ..., k-1 in representation order); moreover each path a
successful finalization would push extends the current path's active pairs
by exactly one section, active with rank equal to the count of sections
already active in the current path. -/
theorem c7_rank_invariant (r : Runner) (h : Reachable r) :
    (activeIdx r.current).Nodup ∧
    (∀ p ∈ r.queue, (activeIdx p).Nodup) ∧
    (∀ p ∈ successPaths r, ∃ sec ∈ r.new,
      activePairs p = activePairs r.current ++
        [(sec, { should_enter := true, index := countActive r.current })]) := by
  have hinv : RunnerInv r := by
    induction h with
    | refl => exact runnerInv_new
    | tail hab hstep ih =>
      cases hstep with
      | start => exact runnerInv_start _ ih
      | step => exact runnerInv_step _ ih
      | enter n f l => exact runnerInv_enter _ n f l ih
      | success => exact runnerInv_success _ ih
      | failure => exact runnerInv_failure _ ih
  refine ⟨?_, ?_, ?_⟩
  · rw [hinv.1]
    exact List.nodup_range _
  · intro p hp
    rw [hinv.2.1 p hp]
    exact List.nodup_range _
  · intro p hp
    rcases List.mem_map.mp hp with ⟨sec, hsec, rfl⟩
    exact ⟨sec, hsec, buildPath_activePairs r.current r.new sec (countActive r.current)
      (fun s hs => hinv.2.2 s hs) hsec⟩

/-- Witness for C7 at a reachable state three operations deep. -/
theorem c7_witness :
    Reachable w7state ∧
    ((activeIdx w7state.current).Nodup ∧
     (∀ p ∈ w7state.queue, (activeIdx p).Nodup) ∧
     (∀ p ∈ successPaths w7state, ∃ sec ∈ w7state.new,
       activePairs p = activePairs w7state.current ++
         [(sec, { should_enter := true, index := countActive w7state.current })])) := by
  have hr : Reachable w7state :=
    Relation.ReflTransGen.tail
      (Relation.ReflTransGen.tail
        (Relation.ReflTransGen.single (EngineStep.step runnerNew))
        (EngineStep.enter (enable_sections_step runnerNew).2 "push" exFile 26))
      (EngineStep.success (enter_section (enable_sections_step runnerNew).2 "push" exFile 26).2)
  exact ⟨hr, c7_rank_invariant w7state hr⟩

end SectionTesting
